import Mathlib

/-!
Shallow embedding of the Flow Launcher multi-translate plugin's core
(`src/index.ts`): prompt parsing (`parsePrompt`), the quick-select
language-pair list, and the concurrent multi-service translation dispatch
of the `query` handler.

Strings are modelled as `List Char` (`Str`). JavaScript values that may be
`undefined` are modelled as `Option`; a JavaScript computation that may
throw or a promise that may reject is modelled with the `Fallible` type.
External collaborators that live outside `src/` (the language table
`languageCodesArr` / `languageNamesMap`, the service registry
`servicesData` / `serviceNamesMap`) are parameters of the embedding,
gathered in the `Env` structure.
-/

namespace MultiTranslate

/-- Strings, modelled as lists of characters. -/
abbrev Str := List Char

/-- Embed a Lean string literal as a `Str`. -/
def str (s : String) : Str := s.toList

/-- A character matched by the `[a-z_]` character class used by the three
prefix regexes of `parsePrompt`. -/
def isCodeChar (c : Char) : Bool :=
  (decide (97 ≤ c.toNat) && decide (c.toNat ≤ 122)) || decide (c.toNat = 95)

/-- The space character test used by `prompt.indexOf(' ')`. -/
def isSpace (c : Char) : Bool := c == ' '

/-- JavaScript `String.prototype.trim`: drop whitespace from both ends. -/
def trim (l : Str) : Str :=
  ((l.dropWhile Char.isWhitespace).reverse.dropWhile Char.isWhitespace).reverse

/-- Index of the first character satisfying `p`, or `none`
(JavaScript `indexOf` returning `-1` is modelled as `none`). -/
def firstIdx (p : Char → Bool) : Str → Option Nat
  | [] => none
  | c :: cs => if p c then some 0 else (firstIdx p cs).map (· + 1)

/-- Matcher for the regex `^([a-z_]+)>([a-z_]+)$` (Part 1 of `parsePrompt`):
returns the two capture groups on success. -/
def match1 (l : Str) : Option (Str × Str) :=
  match l.dropWhile (fun c => !(c == '>')) with
  | _ :: b =>
    if !(l.takeWhile (fun c => !(c == '>'))).isEmpty && !b.isEmpty
        && (l.takeWhile (fun c => !(c == '>'))).all isCodeChar
        && b.all isCodeChar then
      some (l.takeWhile (fun c => !(c == '>')), b)
    else none
  | [] => none

/-- Matcher for the regex `^([a-z_]+)>$` (Part 2 of `parsePrompt`). -/
def match2 (l : Str) : Option Str :=
  match l.dropWhile (fun c => !(c == '>')) with
  | [_] =>
    if !(l.takeWhile (fun c => !(c == '>'))).isEmpty
        && (l.takeWhile (fun c => !(c == '>'))).all isCodeChar then
      some (l.takeWhile (fun c => !(c == '>')))
    else none
  | _ => none

/-- Matcher for the regex `^>?([a-z_]+)$` (Part 3 of `parsePrompt`). -/
def match3 (l : Str) : Option Str :=
  match l with
  | '>' :: rest =>
    if !rest.isEmpty && rest.all isCodeChar then some rest else none
  | _ => if !l.isEmpty && l.all isCodeChar then some l else none

/-- Result record of `parsePrompt`. -/
structure ParseResult where
  sourceLanguageCode : Str
  targetLanguageCode : Str
  text : Str
deriving DecidableEq, Repr

/-- The regex cascade of `parsePrompt` (Parts 1-3 and the default case),
applied to an already-extracted prefix and rest. A form whose codes are
not in `codes` falls through to the next form, exactly as the early
returns in the source do. -/
def parseCore (codes : List Str) (pfx rest prompt oldSource oldTarget : Str) :
    ParseResult :=
  let try3 : ParseResult :=
    match match3 pfx with
    | some t =>
      if codes.contains t then ⟨oldSource, t, rest⟩
      else ⟨oldSource, oldTarget, prompt⟩
    | none => ⟨oldSource, oldTarget, prompt⟩
  let try2 : ParseResult :=
    match match2 pfx with
    | some s =>
      if codes.contains s then ⟨s, oldTarget, rest⟩ else try3
    | none => try3
  match match1 pfx with
  | some (s, t) =>
    if codes.contains s && codes.contains t then ⟨s, t, rest⟩ else try2
  | none => try2

/-- `parsePrompt` from `src/index.ts` (lines 162-244): split at the first
space (`prompt.indexOf(' ')`), apply the length guard (`spaceIndex > 15`),
then run the regex cascade on the prefix, with the remainder trimmed. -/
def parsePrompt (codes : List Str) (prompt oldSource oldTarget : Str) :
    ParseResult :=
  match firstIdx isSpace prompt with
  | some i =>
    if 15 < i then ⟨oldSource, oldTarget, prompt⟩
    else
      parseCore codes (prompt.take i) (trim (prompt.drop (i + 1))) prompt
        oldSource oldTarget
  | none => parseCore codes prompt [] prompt oldSource oldTarget

/-! ## The query handler and translation dispatcher -/

/-- The three interface languages of `messagesMap` (the keys of each entry:
`en`, `tr`, `zh`). -/
inductive Lang where
  | en
  | tr
  | zh
deriving DecidableEq, Repr

/-- A JavaScript computation that either produces a value or throws, and a
promise that either fulfils or rejects: `.exn` carries the thrown /
rejection value (as a string). -/
inductive Fallible (α : Type) where
  | val : α → Fallible α
  | exn : Str → Fallible α
deriving DecidableEq, Repr

/-- Map over the success value of a `Fallible`. -/
def Fallible.map {α β : Type} (f : α → β) : Fallible α → Fallible β
  | .val a => .val (f a)
  | .exn e => .exn e

/-- The payload of the `TypeError` thrown by an unguarded
`languageNamesMap[x][lang]` or `serviceNamesMap[x][lang]` access when `x`
is not a key of the map. -/
def typeError : Str := str "TypeError"

/-- `messagesMap.unsupportedSourceLanguage`. -/
def unsupportedSourceLanguageMsg : Lang → Str
  | .en => str "Unsupported source language"
  | .tr => str "Desteklenmeyen kaynak dil"
  | .zh => str "不支持的源语言"

/-- `messagesMap.unsupportedSourceLanguageSubtitle`. -/
def unsupportedSourceLanguageSubtitleMsg : Lang → Str
  | .en => str "Please check your configuration."
  | .tr => str "Lütfen yapılandırmanızı kontrol edin."
  | .zh => str "请检查您的配置。"

/-- `messagesMap.unsupportedTargetLanguage`. -/
def unsupportedTargetLanguageMsg : Lang → Str
  | .en => str "Unsupported target language"
  | .tr => str "Desteklenmeyen hedef dil"
  | .zh => str "不支持的目标语言"

/-- `messagesMap.unsupportedTargetLanguageSubtitle`. -/
def unsupportedTargetLanguageSubtitleMsg : Lang → Str
  | .en => str "Please check your configuration."
  | .tr => str "Lütfen yapılandırmanızı kontrol edin."
  | .zh => str "请检查您的配置。"

/-- `messagesMap.noServicesConfigured`. -/
def noServicesConfiguredMsg : Lang → Str
  | .en => str "No services configured"
  | .tr => str "Yapılandırılmış hizmet yok"
  | .zh => str "未配置翻译服务"

/-- `messagesMap.noServicesConfiguredSubtitle`. -/
def noServicesConfiguredSubtitleMsg : Lang → Str
  | .en => str "Please check your configuration."
  | .tr => str "Lütfen yapılandırmanızı kontrol edin."
  | .zh => str "请检查您的配置。"

/-- `messagesMap.defaultSelected`. -/
def defaultSelectedMsg : Lang → Str
  | .en => str "Default selected: "
  | .tr => str "Varsayılan seçili: "
  | .zh => str "默认选择: "

/-- `messagesMap.quickSelect`. -/
def quickSelectMsg : Lang → Str
  | .en => str "Quick select: "
  | .tr => str "Hızlı seçim: "
  | .zh => str "快速选择: "

/-- The `jsonRPCAction` payload of a result item: either
`Flow.Actions.changeQuery(newQuery, { requery })` or the custom
`copy` action carrying the string to place on the clipboard. -/
inductive Action where
  | changeQuery (newQuery : Str) (requery : Bool)
  | copy (s : Str)
deriving DecidableEq, Repr

/-- A result item handed to the launcher (icon paths are recorded relative
to the plugin's `assets` directory, whose absolute location is
environment-dependent). -/
structure Item where
  title : Str
  subtitle : Str
  icoPath : Str
  action : Option Action
deriving DecidableEq, Repr

/-- One entry of the external service registry `servicesData`:
a supported-language map (language code to service-specific code) and the
asynchronous `translate` capability. The two code arguments of `translate`
are `Option`s because the source passes raw `languagesMap` lookups, which
can be `undefined` (see the unguarded target lookup). The HTTP client and
settings arguments carry no information the core observes, so they are not
modelled. -/
structure Service where
  languagesMap : Str → Option Str
  translate : Str → Option Str → Option Str → Fallible Str

/-- The external collaborators of the query handler:
`languageCodesArr`, `languageNamesMap`, `servicesData`, `serviceNamesMap`. -/
structure Env where
  codes : List Str
  names : Str → Option (Lang → Str)
  registry : Str → Option Service
  serviceNames : Str → Option (Lang → Str)

/-- The fields of the parsed settings the query handler reads. -/
structure Settings where
  interfaceLanguage : Lang
  sourceLanguageCode : Str
  targetLanguageCode : Str
  triggerKeyword : Str
  services : List Str
  languagePairs : List Str
  translateDelay : Nat

/-- A record of one invocation of a service's `translate` capability, with
the service-specific source and target codes that were passed (either may
be `none`, modelling a JavaScript `undefined` argument). -/
structure TranslateCall where
  name : Str
  text : Str
  srcCode : Option Str
  tgtCode : Option Str
deriving DecidableEq, Repr

/-- What one `query` event produces: the items added to the response
(or the rejection value of the handler's promise when an exception
escapes), plus the list of `translate` invocations that were issued. -/
structure QueryEffect where
  output : Fallible (List Item)
  calls : List TranslateCall
deriving DecidableEq, Repr

/-- The CJK test `/[一-龥]/.test(text)` of the dispatcher. -/
def containsCJK (text : Str) : Bool :=
  text.any (fun c => decide (0x4E00 ≤ c.toNat) && decide (c.toNat ≤ 0x9FA5))

/-- The content-sniffed replacement target:
`regExp.test(text) ? 'en' : 'zh'`. -/
def resolveAuto (text : Str) : Str :=
  if containsCJK text then str "en" else str "zh"

/-- One service's branch of the `translatePromises` map (lines 119-139).
Takes the current value of the shared mutable `targetLanguageCode` and
returns its new value, the settled state of that service's promise
(`.val none` for the silently dropped unknown service, `.val (some (name,
result))` for a fulfilled task, `.exn` for a rejected one), and the
`translate` invocation it issued, if any. -/
def serviceStep (env : Env) (unsupMsg : Str) (text srcLang : Str)
    (tgt : Str) (name : Str) :
    Str × Fallible (Option (Str × Str)) × Option TranslateCall :=
  match env.registry name with
  | none => (tgt, .val none, none)
  | some service =>
    match service.languagesMap srcLang with
    | none => (tgt, .val (some (name, unsupMsg)), none)
    | some _ =>
      let tgt' :=
        if tgt = str "auto" ∨ service.languagesMap tgt = none then
          resolveAuto text
        else tgt
      (tgt',
       (service.translate text (service.languagesMap srcLang)
          (service.languagesMap tgt')).map (fun r => some (name, r)),
       some ⟨name, text, service.languagesMap srcLang,
         service.languagesMap tgt'⟩)

/-- Run the service branches in configured order. Each branch's
synchronous part (registry lookup, source check, target auto-resolution,
argument evaluation of the `translate` call) runs before the next branch
starts, because `Array.prototype.map` invokes each async callback up to
its first `await` in order; the shared mutable `targetLanguageCode` is
therefore threaded sequentially. Returns the final value of
`targetLanguageCode`, the per-service promise states in configured order,
and the issued `translate` calls. -/
def runServices (env : Env) (unsupMsg : Str) (text srcLang : Str) :
    Str → List Str →
    Str × List (Fallible (Option (Str × Str))) × List TranslateCall
  | tgt, [] => (tgt, [], [])
  | tgt, name :: rest =>
    let s := serviceStep env unsupMsg text srcLang tgt name
    let r := runServices env unsupMsg text srcLang s.1 rest
    (r.1, s.2.1 :: r.2.1, s.2.2.toList ++ r.2.2)

/-- `Promise.all`: fulfils with the list of values in task order, or
rejects if any task rejects. (In the source the rejection value is the
temporally first rejection; here the first in task order stands for it —
no claim depends on which rejection value is reported.) -/
def promiseAll : List (Fallible (Option (Str × Str))) →
    Fallible (List (Option (Str × Str)))
  | [] => .val []
  | .exn e :: _ => .exn e
  | .val v :: rest => (promiseAll rest).map (fun l => v :: l)

/-- The result items built from the fulfilled dispatch results
(lines 142-151): each non-null result becomes an item whose subtitle is
formed from the language display names (looked up at the final, possibly
mutated target code) and the service display name; a missing map entry
throws. -/
def buildItems (env : Env) (lang : Lang) (srcLang tgt : Str) :
    List (Str × Str) → Fallible (List Item)
  | [] => .val []
  | (name, result) :: rest =>
    match env.names srcLang, env.names tgt, env.serviceNames name with
    | some fs, some ft, some fn =>
      (buildItems env lang srcLang tgt rest).map
        (fun items =>
          ⟨result,
           fs lang ++ str " → " ++ ft lang ++ str "  [" ++ fn lang ++ str "]",
           str "service_icon/" ++ name ++ str ".png",
           some (.copy result)⟩ :: items)
    | _, _, _ => .exn typeError

/-- The "no services configured" notice item. -/
def noServicesItem (lang : Lang) : Item :=
  ⟨noServicesConfiguredMsg lang, noServicesConfiguredSubtitleMsg lang,
   str "warning.png", none⟩

/-- The "unsupported source language" notice item (title carries the
offending code). -/
def unsupSourceItem (lang : Lang) (code : Str) : Item :=
  ⟨unsupportedSourceLanguageMsg lang ++ str " " ++ code,
   unsupportedSourceLanguageSubtitleMsg lang, str "warning.png", none⟩

/-- The "unsupported target language" notice item. -/
def unsupTargetItem (lang : Lang) (code : Str) : Item :=
  ⟨unsupportedTargetLanguageMsg lang ++ str " " ++ code,
   unsupportedTargetLanguageSubtitleMsg lang, str "warning.png", none⟩

/-- The info item showing the current source → target pair (the template
shared by lines 84-88 and 107-111): display names in the title, the codes
in the subtitle. Throws when a code has no entry in `languageNamesMap`. -/
def currentPairInfo (env : Env) (lang : Lang) (srcLang tgt : Str) :
    Fallible Item :=
  match env.names srcLang, env.names tgt with
  | some fs, some ft =>
    .val ⟨fs lang ++ str " → " ++ ft lang,
          defaultSelectedMsg lang ++ str " " ++ srcLang ++ str " → " ++ tgt,
          str "info.png", none⟩
  | _, _ => .exn typeError

/-- A single-item response, or a rejected handler when building the item
threw. -/
def singleInfo : Fallible Item → QueryEffect
  | .val it => ⟨.val [it], []⟩
  | .exn e => ⟨.exn e, []⟩

/-- JavaScript `pair.split('>')` on the character list. -/
def splitGt : Str → List Str
  | [] => [[]]
  | c :: cs =>
    if c = '>' then [] :: splitGt cs
    else
      match splitGt cs with
      | r :: rs => (c :: r) :: rs
      | [] => [[c]]

/-- The filter of line 75: a configured pair is kept when the first two
components of `pair.split('>')`, trimmed, are both in `languageCodesArr`
(a missing second component is JavaScript `undefined`, which `includes`
rejects). -/
def isValidPair (codes : List Str) (pair : Str) : Bool :=
  match (splitGt pair).map trim with
  | s :: t :: _ => codes.contains s && codes.contains t
  | _ => false

/-- The quick-select item built for one configured pair (lines 89-99):
display names with fallback to the code when the name is empty, the
`changeQuery` action carrying the original pair string. Throws when a
code has no entry in `languageNamesMap`. -/
def mkPairItem (env : Env) (settings : Settings) (pair : Str) :
    Fallible Item :=
  let lang := settings.interfaceLanguage
  match (splitGt pair).map trim with
  | s :: t :: _ =>
    match env.names s, env.names t with
    | some fs, some ft =>
      let sourceName := if fs lang = [] then s else fs lang
      let targetName := if ft lang = [] then t else ft lang
      .val ⟨sourceName ++ str " → " ++ targetName,
            quickSelectMsg lang ++ str " " ++ s ++ str " → " ++ t,
            str "info.png",
            some (.changeQuery
              (settings.triggerKeyword ++ str " " ++ pair ++ str " ") true)⟩
    | _, _ => .exn typeError
  | _ => .exn typeError

/-- Sequence a list of fallible computations, stopping at the first
exception (as building the argument list of `response.add(...)` does). -/
def traverseF {α β : Type} (f : α → Fallible β) : List α → Fallible (List β)
  | [] => .val []
  | a :: as =>
    match f a with
    | .exn e => .exn e
    | .val b => (traverseF f as).map (fun bs => b :: bs)

/-- The quick-select list (lines 83-100): the current default pair first,
then an item per valid configured pair, in configured order. -/
def quickSelectItems (env : Env) (settings : Settings) :
    Fallible (List Item) :=
  match currentPairInfo env settings.interfaceLanguage
      settings.sourceLanguageCode settings.targetLanguageCode with
  | .exn e => .exn e
  | .val d =>
    (traverseF (mkPairItem env settings)
      (settings.languagePairs.filter (isValidPair env.codes))).map
      (fun tl => d :: tl)

/-- The `query` event handler of `main` (lines 32-154): precondition
short-circuits in source order, the quick-select branch on a blank prompt,
prompt parsing, the empty-text branch, and the dispatch.
The debounce delay is a pure suspension and is not modelled. -/
def handleQuery (env : Env) (settings : Settings) (prompt : Str) :
    QueryEffect :=
  let lang := settings.interfaceLanguage
  if settings.services = [] then
    ⟨.val [noServicesItem lang], []⟩
  else if (env.names settings.sourceLanguageCode).isNone then
    ⟨.val [unsupSourceItem lang settings.sourceLanguageCode], []⟩
  else if (env.names settings.targetLanguageCode).isNone then
    ⟨.val [unsupTargetItem lang settings.targetLanguageCode], []⟩
  else if settings.languagePairs ≠ [] ∧ trim prompt = [] then
    ⟨quickSelectItems env settings, []⟩
  else
    let r := parsePrompt env.codes prompt settings.sourceLanguageCode
      settings.targetLanguageCode
    if trim r.text = [] then
      singleInfo (currentPairInfo env lang r.sourceLanguageCode
        r.targetLanguageCode)
    else
      let d := runServices env (unsupportedSourceLanguageMsg lang) r.text
        r.sourceLanguageCode r.targetLanguageCode settings.services
      match promiseAll d.2.1 with
      | .exn e => ⟨.exn e, d.2.2⟩
      | .val results =>
        ⟨buildItems env lang r.sourceLanguageCode d.1 (results.filterMap id),
         d.2.2⟩

/-! ## Specification-side parser definitions (for claim C2)

These two definitions are written from the words of claim C2, not from the
source; they exist to be compared with `parsePrompt`. -/

/-- Modelled from claim C2's words: the prefix is "the substring before
the first whitespace, or the whole prompt if none", `rest` is "the trimmed
remainder after the whitespace", the forms are tried in priority order
with the valid-code requirement, and a failed cascade returns the whole
prompt with the old codes. (No length guard, and genuine whitespace rather
than only the space character: these are the two points on which the claim
diverges from the code.) -/
def specParseClaim (codes : List Str) (prompt oldSource oldTarget : Str) :
    ParseResult :=
  let pfx := prompt.takeWhile (fun c => !c.isWhitespace)
  let rem := prompt.dropWhile (fun c => !c.isWhitespace)
  parseCore codes pfx (trim (rem.drop 1)) prompt oldSource oldTarget

/-- Claim C2 as the counterexamples force it to be amended: the split is
at the first space character (not any whitespace), and a first space at
index greater than 15 short-circuits to `(oldSource, oldTarget, prompt)`. -/
def specParseAmended (codes : List Str) (prompt oldSource oldTarget : Str) :
    ParseResult :=
  let pfx := prompt.takeWhile (fun c => !isSpace c)
  let rem := prompt.dropWhile (fun c => !isSpace c)
  if rem ≠ [] ∧ 15 < pfx.length then ⟨oldSource, oldTarget, prompt⟩
  else parseCore codes pfx (trim (rem.drop 1)) prompt oldSource oldTarget

/-! ## Concrete collaborators for witnesses and counterexamples -/

/-- A service supporting `en` and `zh` whose translation always
fulfils with `"G"`. -/
def goodSvc : Service where
  languagesMap := fun c =>
    if c = str "en" then some (str "EN")
    else if c = str "zh" then some (str "ZH")
    else none
  translate := fun _ _ _ => .val (str "G")

/-- A service supporting `en` and `zh` whose translation always rejects
with `"boom"`. -/
def badSvc : Service where
  languagesMap := fun c =>
    if c = str "en" then some (str "EN")
    else if c = str "zh" then some (str "ZH")
    else none
  translate := fun _ _ _ => .exn (str "boom")

/-- A service supporting only `en`, fulfilling with `"T"`. -/
def tinySvc : Service where
  languagesMap := fun c =>
    if c = str "en" then some (str "EN") else none
  translate := fun _ _ _ => .val (str "T")

/-- A concrete environment: valid codes `en` and `zh`, display names for
both, and the three services above in the registry. -/
def envW : Env where
  codes := [str "en", str "zh"]
  names := fun c =>
    if c = str "en" then some (fun _ => str "English")
    else if c = str "zh" then some (fun _ => str "Chinese")
    else none
  registry := fun n =>
    if n = str "good" then some goodSvc
    else if n = str "bad" then some badSvc
    else if n = str "tiny" then some tinySvc
    else none
  serviceNames := fun n =>
    if n = str "good" then some (fun _ => str "Good")
    else if n = str "bad" then some (fun _ => str "Bad")
    else if n = str "tiny" then some (fun _ => str "Tiny")
    else none

/-- Baseline settings for the concrete environment. -/
def settingsW : Settings where
  interfaceLanguage := .en
  sourceLanguageCode := str "en"
  targetLanguageCode := str "zh"
  triggerKeyword := str "tr"
  services := [str "good"]
  languagePairs := []
  translateDelay := 0

/-- Settings with one fulfilling and one rejecting service, for C1. -/
def settingsC1 : Settings := { settingsW with
  services := [str "good", str "bad"] }

/-- Settings with a valid, an invalid, and a valid-with-spaces configured
pair, for the C8 witness. -/
def settingsC8 : Settings := { settingsW with
  languagePairs := [str "en>zh", str "xx>zh", str "zh > en"] }

/-- The quick-select list the concrete C8 settings produce. -/
def itemsW8 : List Item :=
  match quickSelectItems envW settingsC8 with
  | .val l => l
  | .exn _ => []

theorem firstIdx_none_take {p : Char → Bool} :
    ∀ l : Str, firstIdx p l = none →
      l.takeWhile (fun c => !p c) = l ∧ l.dropWhile (fun c => !p c) = [] := by
  intro l
  induction l with
  | nil => intro _; exact ⟨rfl, rfl⟩
  | cons c cs ih =>
    intro h
    unfold firstIdx at h
    cases hpc : p c with
    | true => rw [hpc] at h; simp at h
    | false =>
      rw [hpc] at h
      simp at h
      obtain ⟨h1, h2⟩ := ih h
      simp [List.takeWhile_cons, List.dropWhile_cons, hpc, h1, h2]

theorem firstIdx_some_decomp {p : Char → Bool} :
    ∀ (l : Str) (i : Nat), firstIdx p l = some i →
      ∃ a c b, l = a ++ c :: b ∧ a.length = i ∧ p c = true ∧
        ∀ x ∈ a, p x = false := by
  intro l
  induction l with
  | nil => intro i h; simp [firstIdx] at h
  | cons c cs ih =>
    intro i h
    unfold firstIdx at h
    cases hpc : p c with
    | true =>
      rw [hpc] at h
      simp at h
      subst h
      exact ⟨[], c, cs, rfl, rfl, hpc, by simp⟩
    | false =>
      rw [hpc] at h
      simp at h
      obtain ⟨j, hj, rfl⟩ := h
      obtain ⟨a, d, b, rfl, hlen, hd, ha⟩ := ih j hj
      refine ⟨c :: a, d, b, rfl, by simp [hlen], hd, ?_⟩
      intro x hx
      rcases List.mem_cons.mp hx with rfl | hx'
      · exact hpc
      · exact ha x hx'

theorem takeWhile_prepend {q : Char → Bool} :
    ∀ (a : Str) (c : Char) (b : Str), (∀ x ∈ a, q x = true) → q c = false →
      (a ++ c :: b).takeWhile q = a := by
  intro a c b
  induction a with
  | nil => intro _ hc; simp [List.takeWhile_cons, hc]
  | cons x xs ih =>
    intro ha hc
    have hx : q x = true := ha x (List.mem_cons_self x xs)
    simp only [List.cons_append, List.takeWhile_cons, hx, if_true]
    rw [ih (fun y hy => ha y (List.mem_cons_of_mem _ hy)) hc]

theorem dropWhile_prepend {q : Char → Bool} :
    ∀ (a : Str) (c : Char) (b : Str), (∀ x ∈ a, q x = true) → q c = false →
      (a ++ c :: b).dropWhile q = c :: b := by
  intro a c b
  induction a with
  | nil => intro _ hc; simp [List.dropWhile_cons, hc]
  | cons x xs ih =>
    intro ha hc
    have hx : q x = true := ha x (List.mem_cons_self x xs)
    simp only [List.cons_append, List.dropWhile_cons, hx, if_true]
    exact ih (fun y hy => ha y (List.mem_cons_of_mem _ hy)) hc

theorem take_len : ∀ (a r : Str), (a ++ r).take a.length = a := by
  intro a r
  induction a with
  | nil => rfl
  | cons x xs ih => simp [ih]

theorem drop_len1 : ∀ (a : Str) (c : Char) (b : Str),
    (a ++ c :: b).drop (a.length + 1) = b := by
  intro a c b
  induction a with
  | nil => rfl
  | cons x xs ih => simp [ih]

theorem firstIdx_mono {p q : Char → Bool} (hpq : ∀ c, q c = true → p c = true) :
    ∀ (l : Str) (j : Nat), firstIdx q l = some j →
      ∃ i, firstIdx p l = some i ∧ i ≤ j := by
  intro l
  induction l with
  | nil => intro j h; simp [firstIdx] at h
  | cons c cs ih =>
    intro j h
    unfold firstIdx at h ⊢
    cases hpc : p c with
    | true => exact ⟨0, by simp, Nat.zero_le _⟩
    | false =>
      have hqc : q c = false := by
        cases hq : q c with
        | false => rfl
        | true => rw [hpq c hq] at hpc; cases hpc
      rw [hqc] at h
      simp at h
      obtain ⟨j', hj', rfl⟩ := h
      obtain ⟨i, hi, hle⟩ := ih j' hj'
      exact ⟨i + 1, by simp [hi], Nat.succ_le_succ hle⟩

theorem dropWhile_head_false {q : Char → Bool} :
    ∀ (l : Str) (c : Char) (r : Str), l.dropWhile q = c :: r → q c = false := by
  intro l
  induction l with
  | nil => intro c r h; cases h
  | cons x xs ih =>
    intro c r h
    rw [List.dropWhile_cons] at h
    by_cases hx : q x = true
    · simp [hx] at h
      exact ih c r h
    · simp [hx] at h
      obtain ⟨rfl, -⟩ := h
      simpa using hx


theorem ws_not_code {c : Char} (h : c.isWhitespace = true) :
    isCodeChar c = false := by
  simp [Char.isWhitespace] at h
  rcases h with ((h | h) | h) | h <;> subst h <;> decide

theorem ws_ne_gt {c : Char} (h : c.isWhitespace = true) : c ≠ '>' := by
  simp [Char.isWhitespace] at h
  rcases h with ((h | h) | h) | h <;> subst h <;> decide

theorem match1_decomp {l a b : Str} (h : match1 l = some (a, b)) :
    l = a ++ '>' :: b ∧ a ≠ [] ∧ b ≠ [] ∧
      a.all isCodeChar = true ∧ b.all isCodeChar = true := by
  unfold match1 at h
  split at h
  next c r hd =>
    split at h
    next hcond =>
      injection h with h'
      have hta : l.takeWhile (fun c => !(c == '>')) = a := congrArg Prod.fst h'
      have htb : r = b := congrArg Prod.snd h'
      have hc : (fun x => !(x == '>')) c = false := dropWhile_head_false l c r hd
      have hcgt : c = '>' := by simpa using hc
      subst hcgt
      rw [htb] at hd
      simp only [Bool.and_eq_true, Bool.not_eq_true'] at hcond
      obtain ⟨⟨⟨he1, he2⟩, he3⟩, he4⟩ := hcond
      rw [hta] at he1 he3
      rw [htb] at he2 he4
      refine ⟨?_, ?_, ?_, he3, he4⟩
      · rw [← hta, ← hd]
        exact (List.takeWhile_append_dropWhile _ _).symm
      · exact fun hnil => by simp [hnil] at he1
      · exact fun hnil => by simp [hnil] at he2
    next => cases h
  next => cases h

theorem match2_decomp {l a : Str} (h : match2 l = some a) :
    l = a ++ ['>'] ∧ a ≠ [] ∧ a.all isCodeChar = true := by
  unfold match2 at h
  split at h
  next c hd =>
    split at h
    next hcond =>
      injection h with h'
      have hc : (fun x => !(x == '>')) c = false := dropWhile_head_false l c [] hd
      have hcgt : c = '>' := by simpa using hc
      subst hcgt
      simp only [Bool.and_eq_true, Bool.not_eq_true'] at hcond
      obtain ⟨he1, he3⟩ := hcond
      rw [h'] at he1 he3
      refine ⟨?_, ?_, he3⟩
      · rw [← h', ← hd]
        exact (List.takeWhile_append_dropWhile _ _).symm
      · exact fun hnil => by simp [hnil] at he1
    next => cases h
  next => cases h

theorem match3_decomp {l t : Str} (h : match3 l = some t) :
    (l = '>' :: t ∨ l = t) ∧ t ≠ [] ∧ t.all isCodeChar = true := by
  unfold match3 at h
  split at h
  next rest =>
    split at h
    next hcond =>
      injection h with h'
      subst h'
      simp only [Bool.and_eq_true, Bool.not_eq_true'] at hcond
      exact ⟨Or.inl rfl, fun hnil => by simp [hnil] at hcond, hcond.2⟩
    next => cases h
  next =>
    split at h
    next hcond =>
      injection h with h'
      subst h'
      simp only [Bool.and_eq_true, Bool.not_eq_true'] at hcond
      exact ⟨Or.inr rfl, fun hnil => by simp [hnil] at hcond, hcond.2⟩
    next => cases h


theorem matchersFailOnWs {l : Str} {c : Char} (hmem : c ∈ l)
    (hwc : c.isWhitespace = true) :
    match1 l = none ∧ match2 l = none ∧ match3 l = none := by
  refine ⟨?_, ?_, ?_⟩
  · cases hm : match1 l with
    | none => rfl
    | some ab =>
      obtain ⟨heq, -, -, hax, hby⟩ := match1_decomp (a := ab.1) (b := ab.2)
        (by rw [hm])
      rw [heq] at hmem
      rcases List.mem_append.mp hmem with hx | hy
      · have := List.all_eq_true.mp hax c hx
        rw [ws_not_code hwc] at this
        cases this
      · rcases List.mem_cons.mp hy with rfl | hy2
        · exact absurd hwc (by simp)
        · have := List.all_eq_true.mp hby c hy2
          rw [ws_not_code hwc] at this
          cases this
  · cases hm : match2 l with
    | none => rfl
    | some a =>
      obtain ⟨heq, -, hax⟩ := match2_decomp hm
      rw [heq] at hmem
      rcases List.mem_append.mp hmem with hx | hy
      · have := List.all_eq_true.mp hax c hx
        rw [ws_not_code hwc] at this
        cases this
      · rcases List.mem_cons.mp hy with rfl | hy2
        · exact absurd hwc (by simp)
        · cases hy2
  · cases hm : match3 l with
    | none => rfl
    | some t =>
      obtain ⟨heq, -, hax⟩ := match3_decomp hm
      rcases heq with heq | heq
      · rw [heq] at hmem
        rcases List.mem_cons.mp hmem with rfl | hy2
        · exact absurd hwc (by simp)
        · have := List.all_eq_true.mp hax c hy2
          rw [ws_not_code hwc] at this
          cases this
      · rw [heq] at hmem
        have := List.all_eq_true.mp hax c hmem
        rw [ws_not_code hwc] at this
        cases this

theorem parseCore_default {codes : List Str} {pfx rest prompt s t : Str}
    (h1 : match1 pfx = none) (h2 : match2 pfx = none)
    (h3 : match3 pfx = none) :
    parseCore codes pfx rest prompt s t = ⟨s, t, prompt⟩ := by
  simp [parseCore, h1, h2, h3]

/-- C7: for every prompt whose first whitespace character sits at an
index greater than 15, `parse(p, s, t)` returns `(s, t, p)` unchanged,
treating the entire prompt as plain text. -/
theorem claim_C7 (codes : List Str) (p oldS oldT : Str) (i : Nat)
    (h1 : firstIdx Char.isWhitespace p = some i) (h2 : 15 < i) :
    parsePrompt codes p oldS oldT = ⟨oldS, oldT, p⟩ := by
  unfold parsePrompt
  cases hs : firstIdx isSpace p with
  | some j =>
    obtain ⟨i', hi', hle⟩ := firstIdx_mono
      (p := Char.isWhitespace) (q := isSpace)
      (fun c hc => by
        have : c = ' ' := by simpa [isSpace] using hc
        subst this
        rfl)
      p j hs
    rw [h1] at hi'
    injection hi' with hii
    subst hii
    have h15 : 15 < j := Nat.lt_of_lt_of_le h2 hle
    simp [h15]
  | none =>
    obtain ⟨a, c, b, heq, -, hwc, -⟩ := firstIdx_some_decomp p i h1
    have hmem : c ∈ p := by rw [heq]; simp
    obtain ⟨hm1, hm2, hm3⟩ := matchersFailOnWs hmem hwc
    exact parseCore_default hm1 hm2 hm3

theorem claim_C7_witness :
    firstIdx Char.isWhitespace (str "aaaaaaaaaaaaaaaa hello") = some 16 ∧
    15 < 16 ∧
    parsePrompt [str "en", str "zh"] (str "aaaaaaaaaaaaaaaa hello")
        (str "en") (str "zh")
      = ⟨str "en", str "zh", str "aaaaaaaaaaaaaaaa hello"⟩ :=
  ⟨by decide, by decide,
   claim_C7 [str "en", str "zh"] (str "aaaaaaaaaaaaaaaa hello")
     (str "en") (str "zh") 16 (by decide) (by decide)⟩


/-- C2 counterexample: (1) on a prompt whose first whitespace is a tab,
the code does not recognise the prefix the claim says it recognises;
(2) with a 17-character valid code, the claim's description (which lacks
the length guard) disagrees with the code on a prompt whose first space is
at index 16. -/
theorem claim_C2_counterexample :
    (parsePrompt [str "en", str "zh"] (str "en>zh\thello") (str "s") (str "t")
        = ⟨str "s", str "t", str "en>zh\thello"⟩
      ∧ specParseClaim [str "en", str "zh"] (str "en>zh\thello") (str "s")
          (str "t")
        = ⟨str "en", str "zh", str "hello"⟩)
    ∧ parsePrompt [str "abcdefghijklmnopq"] (str "abcdefghijklmnopq hi")
        (str "s") (str "t")
      ≠ specParseClaim [str "abcdefghijklmnopq"] (str "abcdefghijklmnopq hi")
          (str "s") (str "t") := by
  refine ⟨⟨by decide, by decide⟩, by decide⟩

/-- C2 (amended): `parsePrompt` coincides with the claim's description
once the split is at the first space character and the length guard is
added. -/
theorem claim_C2_amended (codes : List Str) (p oldS oldT : Str) :
    parsePrompt codes p oldS oldT = specParseAmended codes p oldS oldT := by
  unfold parsePrompt specParseAmended
  cases h : firstIdx isSpace p with
  | none =>
    obtain ⟨htw, hdw⟩ := firstIdx_none_take p h
    simp [htw, hdw, trim]
  | some i =>
    obtain ⟨a, c, b, rfl, rfl, hc, ha⟩ := firstIdx_some_decomp p i h
    have hc' : c = ' ' := by simpa [isSpace] using hc
    subst hc'
    have htw : ((a ++ ' ' :: b).takeWhile fun c => !isSpace c) = a :=
      takeWhile_prepend a ' ' b (fun x hx => by simp [ha x hx]) (by simp [isSpace])
    have hdw : ((a ++ ' ' :: b).dropWhile fun c => !isSpace c) = ' ' :: b :=
      dropWhile_prepend a ' ' b (fun x hx => by simp [ha x hx]) (by simp [isSpace])
    simp only [htw, hdw, take_len, drop_len1]
    by_cases h15 : 15 < a.length
    · simp [h15]
    · simp [h15]

theorem claim_C2_amended_witness :
    parsePrompt [str "en", str "zh"] (str "en>zh hello") (str "s") (str "t")
      = specParseAmended [str "en", str "zh"] (str "en>zh hello") (str "s")
          (str "t") :=
  claim_C2_amended [str "en", str "zh"] (str "en>zh hello") (str "s") (str "t")


/-- C5: whenever a dispatched service sees `target == 'auto'` or does not
support the current target, the effective target is re-resolved by content
sniffing — `en` when the text contains a CJK character (code points
0x4E00-0x9FA5, the class of the source's regex), `zh` otherwise — and the
translate call uses the service code of that sniffed target. -/
theorem claim_C5 (env : Env) (unsupMsg text srcLang tgt name : Str)
    (service : Service) (sc : Str)
    (hreg : env.registry name = some service)
    (hsrc : service.languagesMap srcLang = some sc)
    (hcond : tgt = str "auto" ∨ service.languagesMap tgt = none) :
    serviceStep env unsupMsg text srcLang tgt name
      = (if containsCJK text then str "en" else str "zh",
         (service.translate text (some sc)
            (service.languagesMap
              (if containsCJK text then str "en" else str "zh"))).map
           (fun r => some (name, r)),
         some ⟨name, text, some sc,
           service.languagesMap
             (if containsCJK text then str "en" else str "zh")⟩) := by
  unfold serviceStep
  rw [hreg]
  simp [hsrc, hcond, resolveAuto]

theorem claim_C5_witness :
    serviceStep envW (str "m") (str "hello") (str "en") (str "auto")
        (str "good")
      = (str "zh", .val (some (str "good", str "G")),
         some ⟨str "good", str "hello", some (str "EN"), some (str "ZH")⟩) ∧
    serviceStep envW (str "m") (str "你好") (str "en") (str "auto")
        (str "good")
      = (str "en", .val (some (str "good", str "G")),
         some ⟨str "good", str "你好", some (str "EN"), some (str "EN")⟩) :=
  ⟨claim_C5 envW (str "m") (str "hello") (str "en") (str "auto") (str "good")
     goodSvc (str "EN") rfl rfl (Or.inl rfl),
   claim_C5 envW (str "m") (str "你好") (str "en") (str "auto") (str "good")
     goodSvc (str "EN") rfl rfl (Or.inl rfl)⟩

theorem runServices_append (env : Env) (unsupMsg text srcLang tgt : Str)
    (xs ys : List Str) :
    runServices env unsupMsg text srcLang tgt (xs ++ ys)
      = ((runServices env unsupMsg text srcLang
            (runServices env unsupMsg text srcLang tgt xs).1 ys).1,
         (runServices env unsupMsg text srcLang tgt xs).2.1
           ++ (runServices env unsupMsg text srcLang
                 (runServices env unsupMsg text srcLang tgt xs).1 ys).2.1,
         (runServices env unsupMsg text srcLang tgt xs).2.2
           ++ (runServices env unsupMsg text srcLang
                 (runServices env unsupMsg text srcLang tgt xs).1 ys).2.2) := by
  induction xs generalizing tgt with
  | nil => simp [runServices]
  | cons n rest ih => simp [runServices, ih]

theorem serviceStep_auto_fst (env : Env) (unsupMsg text srcLang name : Str)
    (service : Service) (sc : Str)
    (hreg : env.registry name = some service)
    (hsrc : service.languagesMap srcLang = some sc) :
    (serviceStep env unsupMsg text srcLang (str "auto") name).1
      = resolveAuto text := by
  unfold serviceStep
  rw [hreg]
  simp [hsrc]

/-- C6: the per-service auto-resolution mutates the shared target. If the
services processed so far left the shared target at `'auto'` and the next
service is found and supports the source, then that service triggers
auto-detection and every later service in configured order is evaluated
against the already-resolved target (`resolveAuto text`, which is `'en'`
or `'zh'` and never `'auto'`), not against `'auto'`. -/
theorem claim_C6 (env : Env) (unsupMsg text srcLang tgt name : Str)
    (pre rest : List Str) (service : Service) (sc : Str)
    (hpre : (runServices env unsupMsg text srcLang tgt pre).1 = str "auto")
    (hreg : env.registry name = some service)
    (hsrc : service.languagesMap srcLang = some sc) :
    resolveAuto text ≠ str "auto" ∧
    (runServices env unsupMsg text srcLang tgt (pre ++ name :: rest)).2.1
      = (runServices env unsupMsg text srcLang tgt pre).2.1
        ++ (serviceStep env unsupMsg text srcLang (str "auto") name).2.1
           :: (runServices env unsupMsg text srcLang (resolveAuto text)
                 rest).2.1 := by
  constructor
  · unfold resolveAuto
    split <;> decide
  · rw [runServices_append, hpre]
    simp only [runServices]
    rw [serviceStep_auto_fst env unsupMsg text srcLang name service sc hreg
      hsrc]

theorem claim_C6_witness :
    (runServices envW (str "m") (str "hello") (str "en") (str "auto")
        [str "missing"]).1 = str "auto" ∧
    resolveAuto (str "hello") ≠ str "auto" ∧
    (runServices envW (str "m") (str "hello") (str "en") (str "auto")
        ([str "missing"] ++ str "good" :: [str "bad"])).2.1
      = (runServices envW (str "m") (str "hello") (str "en") (str "auto")
           [str "missing"]).2.1
        ++ (serviceStep envW (str "m") (str "hello") (str "en") (str "auto")
              (str "good")).2.1
           :: (runServices envW (str "m") (str "hello") (str "en")
                 (resolveAuto (str "hello")) [str "bad"]).2.1 :=
  ⟨rfl,
   (claim_C6 envW (str "m") (str "hello") (str "en") (str "auto")
      (str "good") [str "missing"] [str "bad"] goodSvc (str "EN") rfl rfl
      rfl).1,
   (claim_C6 envW (str "m") (str "hello") (str "en") (str "auto")
      (str "good") [str "missing"] [str "bad"] goodSvc (str "EN") rfl rfl
      rfl).2⟩

/-- C10: after content sniffing there is no further support check. When a
found service supports the source but its `languagesMap` contains neither
the current target (or the target is `'auto'`) nor the sniffed code,
`translate` is still invoked — with `none` (JavaScript `undefined`) as the
target service code — rather than being skipped or producing an
unsupported-target notice. -/
theorem claim_C10 (env : Env) (unsupMsg text srcLang tgt name : Str)
    (service : Service) (sc : Str)
    (hreg : env.registry name = some service)
    (hsrc : service.languagesMap srcLang = some sc)
    (hcond : tgt = str "auto" ∨ service.languagesMap tgt = none)
    (hmiss : service.languagesMap (resolveAuto text) = none) :
    serviceStep env unsupMsg text srcLang tgt name
      = (resolveAuto text,
         (service.translate text (some sc) none).map (fun r => some (name, r)),
         some ⟨name, text, some sc, none⟩) := by
  unfold serviceStep
  rw [hreg]
  simp [hsrc, hcond, hmiss]

theorem claim_C10_witness :
    tinySvc.languagesMap (str "fr") = none ∧
    tinySvc.languagesMap (resolveAuto (str "hello")) = none ∧
    serviceStep envW (str "m") (str "hello") (str "en") (str "fr")
        (str "tiny")
      = (resolveAuto (str "hello"),
         (tinySvc.translate (str "hello") (some (str "EN")) none).map
           (fun r => some (str "tiny", r)),
         some ⟨str "tiny", str "hello", some (str "EN"), none⟩) :=
  ⟨rfl, rfl,
   claim_C10 envW (str "m") (str "hello") (str "en") (str "fr") (str "tiny")
     tinySvc (str "EN") rfl rfl (Or.inr rfl) rfl⟩


/-- C9: the three dispatcher preconditions are checked in order — no
services configured, settings source absent from the language table,
settings target absent — and each is a terminal short-circuit producing
exactly one informational item with zero translate calls; in particular
the source check fires before the target check regardless of the target,
and the no-services check fires regardless of both codes. -/
theorem claim_C9 (env : Env) (settings : Settings) (prompt : Str) :
    (settings.services = [] →
      handleQuery env settings prompt
        = ⟨.val [noServicesItem settings.interfaceLanguage], []⟩)
    ∧ (settings.services ≠ [] →
       env.names settings.sourceLanguageCode = none →
       handleQuery env settings prompt
         = ⟨.val [unsupSourceItem settings.interfaceLanguage
              settings.sourceLanguageCode], []⟩)
    ∧ (settings.services ≠ [] →
       (env.names settings.sourceLanguageCode).isSome = true →
       env.names settings.targetLanguageCode = none →
       handleQuery env settings prompt
         = ⟨.val [unsupTargetItem settings.interfaceLanguage
              settings.targetLanguageCode], []⟩) := by
  refine ⟨?_, ?_, ?_⟩
  · intro h
    simp [handleQuery, h]
  · intro h1 h2
    simp [handleQuery, h1, h2]
  · intro h1 h2 h3
    obtain ⟨f, hf⟩ := Option.isSome_iff_exists.mp h2
    simp [handleQuery, h1, hf, h3]

theorem claim_C9_witness :
    handleQuery envW { settingsW with services := [] } (str "hello")
      = ⟨.val [noServicesItem .en], []⟩
    ∧ handleQuery envW
        { settingsW with sourceLanguageCode := str "xx",
                         targetLanguageCode := str "yy" } (str "hello")
      = ⟨.val [unsupSourceItem .en (str "xx")], []⟩
    ∧ handleQuery envW { settingsW with targetLanguageCode := str "yy" }
        (str "hello")
      = ⟨.val [unsupTargetItem .en (str "yy")], []⟩ :=
  ⟨(claim_C9 envW { settingsW with services := [] } (str "hello")).1 rfl,
   (claim_C9 envW
      { settingsW with sourceLanguageCode := str "xx",
                       targetLanguageCode := str "yy" } (str "hello")).2.1
     (by decide) rfl,
   (claim_C9 envW { settingsW with targetLanguageCode := str "yy" }
      (str "hello")).2.2 (by decide) rfl rfl⟩

/-- C4 counterexample: the prompt `"en>zh hello"` carries a valid explicit
pair (as the parse of that prompt shows), the settings source `xx` is
absent from the language table, and yet the handler emits the
unsupported-source notice with zero translate calls — dispatch does not
proceed. -/
theorem claim_C4_counterexample :
    parsePrompt envW.codes (str "en>zh hello") (str "xx") (str "zh")
      = ⟨str "en", str "zh", str "hello"⟩
    ∧ envW.names (str "xx") = none
    ∧ handleQuery envW { settingsW with sourceLanguageCode := str "xx" }
        (str "en>zh hello")
      = ⟨.val [unsupSourceItem .en (str "xx")], []⟩ := by
  refine ⟨by decide, rfl, by decide⟩

/-- C4 (amended): the precondition checks run before the prompt parser and
read the settings codes, so a settings source absent from the language
table short-circuits for every prompt — including prompts whose prefix is
a valid explicit pair. -/
theorem claim_C4_amended (env : Env) (settings : Settings) (prompt : Str)
    (hs : settings.services ≠ [])
    (hnone : env.names settings.sourceLanguageCode = none) :
    handleQuery env settings prompt
      = ⟨.val [unsupSourceItem settings.interfaceLanguage
           settings.sourceLanguageCode], []⟩ := by
  simp [handleQuery, hs, hnone]

theorem claim_C4_amended_witness :
    handleQuery envW { settingsW with sourceLanguageCode := str "xx" }
        (str "en>zh hello")
      = ⟨.val [unsupSourceItem .en (str "xx")], []⟩ :=
  claim_C4_amended envW { settingsW with sourceLanguageCode := str "xx" }
    (str "en>zh hello") (by decide) rfl

/-- C3 counterexample: with pairs configured and the prefix-only prompt
`"en>zh"`, the handler produces the single current-pair info item of the
empty-parsed-text branch, not the quick-select list. -/
theorem claim_C3_counterexample :
    (handleQuery envW { settingsW with languagePairs := [str "en>zh"] }
        (str "en>zh")).output
      = .val [⟨str "English → Chinese", str "Default selected:  en → zh",
               str "info.png", none⟩]
    ∧ quickSelectItems envW { settingsW with languagePairs := [str "en>zh"] }
      = .val [⟨str "English → Chinese", str "Default selected:  en → zh",
               str "info.png", none⟩,
              ⟨str "English → Chinese", str "Quick select:  en → zh",
               str "info.png",
               some (.changeQuery (str "tr en>zh ") true)⟩]
    ∧ (handleQuery envW { settingsW with languagePairs := [str "en>zh"] }
        (str "en>zh")).output
      ≠ quickSelectItems envW
          { settingsW with languagePairs := [str "en>zh"] } := by
  refine ⟨by decide, by decide, by decide⟩

/-- C3 (amended): the quick-select branch triggers on a blank raw prompt
(with pairs configured), not on empty parsed text; a prefix-only prompt
instead produces the single current-pair info item, still without
dispatching. -/
theorem claim_C3_amended (env : Env) (settings : Settings) (prompt : Str)
    (hs : settings.services ≠ [])
    (h1 : (env.names settings.sourceLanguageCode).isSome = true)
    (h2 : (env.names settings.targetLanguageCode).isSome = true)
    (hp : settings.languagePairs ≠ []) :
    (trim prompt = [] →
      handleQuery env settings prompt = ⟨quickSelectItems env settings, []⟩)
    ∧ (trim prompt ≠ [] →
       trim (parsePrompt env.codes prompt settings.sourceLanguageCode
         settings.targetLanguageCode).text = [] →
       handleQuery env settings prompt
         = singleInfo (currentPairInfo env settings.interfaceLanguage
             (parsePrompt env.codes prompt settings.sourceLanguageCode
               settings.targetLanguageCode).sourceLanguageCode
             (parsePrompt env.codes prompt settings.sourceLanguageCode
               settings.targetLanguageCode).targetLanguageCode)) := by
  obtain ⟨f, hf⟩ := Option.isSome_iff_exists.mp h1
  obtain ⟨g, hg⟩ := Option.isSome_iff_exists.mp h2
  constructor
  · intro hpr
    simp [handleQuery, hs, hf, hg, hp, hpr]
  · intro hpr hti
    simp [handleQuery, hs, hf, hg, hpr, hti]

theorem claim_C3_amended_witness :
    handleQuery envW { settingsW with languagePairs := [str "en>zh"] }
        (str " ")
      = ⟨quickSelectItems envW
           { settingsW with languagePairs := [str "en>zh"] }, []⟩
    ∧ handleQuery envW { settingsW with languagePairs := [str "en>zh"] }
        (str "en>zh")
      = singleInfo (currentPairInfo envW .en (str "en") (str "zh")) :=
  ⟨(claim_C3_amended envW { settingsW with languagePairs := [str "en>zh"] }
      (str " ") (by decide) rfl rfl (by decide)).1 (by decide),
   (claim_C3_amended envW { settingsW with languagePairs := [str "en>zh"] }
      (str "en>zh") (by decide) rfl rfl (by decide)).2 (by decide)
     (by decide)⟩

/-- C1 is a code bug: with services `good` (fulfils `"G"`) and `bad`
(rejects `"boom"`), `Promise.all` rejects and the handler produces no
items at all — `good`'s result is suppressed — although both translate
calls were issued; with `bad` removed, `good` contributes its item. -/
theorem claim_C1 :
    (handleQuery envW settingsC1 (str "hello")).output = .exn (str "boom")
    ∧ (handleQuery envW settingsC1 (str "hello")).calls.length = 2
    ∧ (handleQuery envW settingsW (str "hello")).output
        = .val [⟨str "G", str "English → Chinese  [Good]",
                 str "service_icon/good.png", some (.copy (str "G"))⟩] := by
  refine ⟨by decide, by decide, by decide⟩


theorem mkPairItem_action {env : Env} {settings : Settings} {p : Str}
    {it : Item} (h : mkPairItem env settings p = .val it) :
    it.action = some (.changeQuery
      (settings.triggerKeyword ++ str " " ++ p ++ str " ") true) := by
  unfold mkPairItem at h
  split at h
  next s t rest =>
    split at h
    next fs ft hfs hft =>
      injection h with h'
      subst h'
      rfl
    next => cases h
  next => cases h

theorem traverseF_pair_actions {env : Env} {settings : Settings} :
    ∀ (ps : List Str) (tl : List Item),
      traverseF (mkPairItem env settings) ps = .val tl →
      tl.map Item.action
        = ps.map (fun p => some (Action.changeQuery
            (settings.triggerKeyword ++ str " " ++ p ++ str " ") true)) := by
  intro ps
  induction ps with
  | nil =>
    intro tl h
    injection h with h'
    subst h'
    rfl
  | cons p ps ih =>
    intro tl h
    unfold traverseF at h
    cases hm : mkPairItem env settings p with
    | exn e => rw [hm] at h; cases h
    | val b =>
      rw [hm] at h
      cases ht : traverseF (mkPairItem env settings) ps with
      | exn e => rw [ht] at h; cases h
      | val bs =>
        rw [ht] at h
        simp only [Fallible.map] at h
        injection h with h'
        subst h'
        simp [mkPairItem_action hm, ih bs ht]

/-- C8: whenever the quick-select list is produced, its head is the item
for the current settings source → target pair (independent of the
configured pair list), and its tail consists of exactly the configured
pairs whose source and target codes are both in the valid-code set, in
configured order (witnessed by the `changeQuery` action each carries); a
configured pair with an invalid code never contributes an item. -/
theorem claim_C8 (env : Env) (settings : Settings) (items : List Item)
    (h : quickSelectItems env settings = .val items) :
    ∃ d tl, items = d :: tl
      ∧ currentPairInfo env settings.interfaceLanguage
          settings.sourceLanguageCode settings.targetLanguageCode = .val d
      ∧ tl.map Item.action
          = (settings.languagePairs.filter (isValidPair env.codes)).map
              (fun p => some (Action.changeQuery
                (settings.triggerKeyword ++ str " " ++ p ++ str " ") true))
      ∧ ∀ p ∈ settings.languagePairs, isValidPair env.codes p = false →
          some (Action.changeQuery
              (settings.triggerKeyword ++ str " " ++ p ++ str " ") true)
            ∉ tl.map Item.action := by
  unfold quickSelectItems at h
  split at h
  next e heq => cases h
  next d heq =>
    cases ht : traverseF (mkPairItem env settings)
        (settings.languagePairs.filter (isValidPair env.codes)) with
    | exn e =>
      rw [ht] at h
      simp only [Fallible.map] at h
      cases h
    | val tl =>
      rw [ht] at h
      simp only [Fallible.map] at h
      injection h with h'
      refine ⟨d, tl, h'.symm, heq, traverseF_pair_actions _ _ ht, ?_⟩
      intro p hp hinvalid hmem
      rw [traverseF_pair_actions _ _ ht] at hmem
      obtain ⟨q, hq, heq⟩ := List.mem_map.mp hmem
      have hqv := (List.mem_filter.mp hq).2
      injection heq with heq1
      injection heq1 with heq2 heq3
      have hq1 : settings.triggerKeyword ++ str " " ++ q
          = settings.triggerKeyword ++ str " " ++ p :=
        List.append_cancel_right heq2
      have hqp : q = p := List.append_cancel_left hq1
      rw [hqp, hinvalid] at hqv
      cases hqv

theorem claim_C8_witness :
    ∃ d tl, itemsW8 = d :: tl
      ∧ currentPairInfo envW settingsC8.interfaceLanguage
          settingsC8.sourceLanguageCode settingsC8.targetLanguageCode = .val d
      ∧ tl.map Item.action
          = (settingsC8.languagePairs.filter (isValidPair envW.codes)).map
              (fun p => some (Action.changeQuery
                (settingsC8.triggerKeyword ++ str " " ++ p ++ str " ") true))
      ∧ ∀ p ∈ settingsC8.languagePairs, isValidPair envW.codes p = false →
          some (Action.changeQuery
              (settingsC8.triggerKeyword ++ str " " ++ p ++ str " ") true)
            ∉ tl.map Item.action :=
  claim_C8 envW settingsC8 itemsW8 rfl


end MultiTranslate
